import Mathlib

/-!
Verification development for `scripts/generate_project_items.py`.

The script extracts a plan (milestone specs and task specs) from a
generative-model response, then reconciles it against a GitHub backend:
milestones are created per repository unless an exact-title match exists,
issues are created unless a duplicate is found among open issues filtered
by the derived label set and the milestone association, and each newly
created issue is attached to an organization project board via the gh CLI.

The embedding below models the backend state (repositories holding
milestones and issues, the organization's project boards) explicitly and
translates each Python function into a pure state-passing function.
Optional string fields of the JSON-derived dictionaries are modelled as
`Option String`; Python truthiness of such a field is `truthy` below.
-/

/-- Python truthiness of an optional string field: `None` and the empty
string are falsy, every other string is truthy. -/
def truthy : Option String → Bool
  | none => false
  | some s => s != ""

/-- Lookup in a Python-dict-like association list (first binding wins;
bindings are kept unique by `alistSet`). -/
def alistGet {α : Type} (k : String) : List (String × α) → Option α
  | [] => none
  | p :: rest => if p.1 = k then some p.2 else alistGet k rest

/-- Assignment `d[k] = v` on a Python-dict-like association list:
overwrites the existing binding in place, or appends a new one. -/
def alistSet {α : Type} (k : String) (v : α) : List (String × α) → List (String × α)
  | [] => [(k, v)]
  | p :: rest => if p.1 = k then (k, v) :: rest else p :: alistSet k v rest

/-- Gregorian leap-year test, used by the calendar-date parser. -/
def isLeap (y : Nat) : Bool := (y % 4 == 0 && y % 100 != 0) || (y % 400 == 0)

/-- Days in a month of the proleptic Gregorian calendar. -/
def daysInMonth (y m : Nat) : Nat :=
  if m == 2 then (if isLeap y then 29 else 28)
  else if m == 4 || m == 6 || m == 9 || m == 11 then 30
  else 31

/-- Splitting a character list at every dash, as Python splits the date
string: the result always has one more part than there are dashes. -/
def splitOnDash : List Char → List (List Char)
  | [] => [[]]
  | c :: rest =>
    if c = '-' then [] :: splitOnDash rest
    else
      match splitOnDash rest with
      | [] => [[c]]
      | h :: tl => (c :: h) :: tl

/-- The year field of the strptime format: the regular expression for
the directive is four digit characters, no more and no fewer. -/
def matchY (cs : List Char) : Option Nat :=
  match cs with
  | [a, b, c, d] =>
    if a.isDigit && b.isDigit && c.isDigit && d.isDigit then
      some ((a.toNat - 48) * 1000 + (b.toNat - 48) * 100 +
        (c.toNat - 48) * 10 + (d.toNat - 48))
    else none
  | _ => none

/-- The month field of the strptime format: the regular expression for
the directive is 1[0-2], 0[1-9] or [1-9] — one digit, or two digits
with no extra leading zero. -/
def matchM (cs : List Char) : Option Nat :=
  match cs with
  | [c] => if '1' ≤ c ∧ c ≤ '9' then some (c.toNat - 48) else none
  | [a, b] =>
    if a = '1' ∧ '0' ≤ b ∧ b ≤ '2' then some (10 + (b.toNat - 48))
    else if a = '0' ∧ '1' ≤ b ∧ b ≤ '9' then some (b.toNat - 48)
    else none
  | _ => none

/-- The day field of the strptime format: the regular expression for
the directive is 3[0-1], [1-2] followed by a digit, 0[1-9], [1-9], or a
space followed by [1-9] (a space-padded single-digit day is accepted). -/
def matchD (cs : List Char) : Option Nat :=
  match cs with
  | [c] => if '1' ≤ c ∧ c ≤ '9' then some (c.toNat - 48) else none
  | [a, b] =>
    if a = '3' ∧ '0' ≤ b ∧ b ≤ '1' then some (30 + (b.toNat - 48))
    else if ('1' ≤ a ∧ a ≤ '2') ∧ b.isDigit then
      some ((a.toNat - 48) * 10 + (b.toNat - 48))
    else if a = '0' ∧ '1' ≤ b ∧ b ≤ '9' then some (b.toNat - 48)
    else if a = ' ' ∧ '1' ≤ b ∧ b ≤ '9' then some (b.toNat - 48)
    else none
  | _ => none

/-- Model of `datetime.strptime(s, "%Y-%m-%d")` over ASCII strings,
returning `none` exactly where the Python call raises `ValueError`. The
call matches the anchored, fully consuming regular expression
Y-m-d with Y, m, d as in `matchY`, `matchM`, `matchD` (the dash never
occurs inside a field, so the match succeeds exactly when the string
has two dashes and each of the three parts matches its field), then
builds a date object, which additionally requires the year to be at
least 1 and the day to fit the month's length. Non-ASCII digit
characters, which the year directive's digit class would also accept,
are treated as unparseable. -/
def parse_date (s : String) : Option (Nat × Nat × Nat) :=
  match splitOnDash s.toList with
  | [ys, ms, ds] =>
    match matchY ys, matchM ms, matchD ds with
    | some y, some m, some d =>
      if 1 ≤ y ∧ 1 ≤ d ∧ d ≤ daysInMonth y m then some (y, m, d) else none
    | _, _, _ => none
  | _ => none

/-- A milestone spec as produced by the plan extractor (Python dict
`m_data`); each field mirrors a `.get` access in the source. -/
structure MilestoneSpec where
  name : Option String
  description : Option String
  due_on : Option String
  target_repositories : List String
  deriving DecidableEq

/-- A task spec as produced by the plan extractor (Python dict
`task_data` / `issue_data`); each field mirrors a `.get` access. -/
structure TaskSpec where
  title : Option String
  description : Option String
  assignee_candidate : Option String
  priority : Option String
  task_granularity : Option String
  status : Option String
  target_repository : Option String
  milestone_name : Option String
  deriving DecidableEq

/-- The parsed plan: `llm_output.get('milestones', [])` and
`llm_output.get('tasks', [])`. -/
structure Plan where
  milestones : List MilestoneSpec
  tasks : List TaskSpec
  deriving DecidableEq

/-- A tracker-side milestone as held by a repository. -/
structure Milestone where
  id : Nat
  title : String
  description : String
  due_on : Option (Nat × Nat × Nat)
  state : String
  deriving DecidableEq

/-- A tracker-side issue as held by a repository. -/
structure Issue where
  number : Nat
  title : String
  state : String
  labels : List String
  milestone : Option Nat
  body : Option String
  url : String
  deriving DecidableEq

/-- The state of one repository: its milestones and issues in listing
order, plus fresh-identifier counters for created objects. -/
structure RepoState where
  full_name : String
  milestones : List Milestone
  issues : List Issue
  next_milestone_id : Nat
  next_issue_number : Nat
  deriving DecidableEq

/-- The two configured repository keys of `REPO_MAP`. -/
inductive RepoKey where
  | frontend
  | backend
  deriving DecidableEq

/-- The `REPO_MAP` dictionary: maps a target-repository string to the
configured repository, `none` for an unknown key. -/
def REPO_MAP (s : String) : Option RepoKey :=
  if s = "frontend" then some RepoKey.frontend
  else if s = "backend" then some RepoKey.backend
  else none

/-- One organization project board as listed by `gh project list`
(fields `owner.login`, `title`, `id`, `number`). -/
structure Project where
  owner_login : String
  title : String
  id : String
  number : Nat
  deriving DecidableEq

/-- The whole backend state: both repositories, the organization's
project boards, the board items added so far (by issue URL), and whether
the `gh project item-add` subprocess succeeds. -/
structure World where
  frontend : RepoState
  backend : RepoState
  projects : List Project
  board_items : List String
  item_add_ok : Bool
  deriving DecidableEq

/-- Repository selection through `REPO_MAP`. -/
def World.getRepo (w : World) : RepoKey → RepoState
  | RepoKey.frontend => w.frontend
  | RepoKey.backend => w.backend

/-- Writing back an updated repository state. -/
def World.setRepo (w : World) : RepoKey → RepoState → World
  | RepoKey.frontend, r => { w with frontend := r }
  | RepoKey.backend, r => { w with backend := r }

/-- The milestone record created by `repo.create_milestone(...)`: the
spec's title, the defaulted description, and the parsed due date, where
a falsy or malformed due-on string degrades to no due date. -/
def mkNewMilestone (repo : RepoState) (m : MilestoneSpec) : Milestone :=
  { id := repo.next_milestone_id
    title := m.name.getD ""
    description := m.description.getD ""
    due_on := if truthy m.due_on then parse_date (m.due_on.getD "") else none
    state := "open" }

/-- Model of `get_or_create_milestone(repo, milestone_data)`: skips on a
falsy name; otherwise scans `repo.get_milestones(state='all')` for the
first exact title match and returns it; otherwise creates a milestone
with the spec's title, defaulted description and parsed due date (a
malformed date string is downgraded to no due date). Returns the
resolved milestone (or `none` on the skip branch) with the updated
repository. -/
def get_or_create_milestone (repo : RepoState) (m : MilestoneSpec) :
    Option Milestone × RepoState :=
  if !(truthy m.name) then (none, repo)
  else
    match repo.milestones.find? (fun ms => ms.title == m.name.getD "") with
    | some ms => (some ms, repo)
    | none =>
      (some (mkNewMilestone repo m),
        { repo with
            milestones := repo.milestones ++ [mkNewMilestone repo m]
            next_milestone_id := repo.next_milestone_id + 1 })

/-- The label list built in `create_github_issue`: the assignee
candidate when it differs from the string unassigned, then
`priority:<value>` when `priority` is truthy, then
`granularity:<value>` when `task_granularity` is truthy. The `status`
field of the task spec is not consulted. -/
def labels_to_add (t : TaskSpec) : List String :=
  (if t.assignee_candidate.getD "unassigned" ≠ "unassigned"
    then [t.assignee_candidate.getD "unassigned"] else [])
  ++ (if truthy t.priority then ["priority:" ++ t.priority.getD ""] else [])
  ++ (if truthy t.task_granularity then ["granularity:" ++ t.task_granularity.getD ""] else [])

/-- Whether an issue is returned by
`repo.get_issues(state='open', labels=lbls, milestone=msFilter)`: the
issue is open, carries every requested label (the GitHub labels filter
is a containment filter), and has exactly the requested milestone
association (`none` meaning the string none was passed, i.e. the issue
has no milestone). -/
def issue_matches_filter (i : Issue) (lbls : List String) (msFilter : Option Nat) : Bool :=
  i.state == "open" && lbls.all (fun l => i.labels.contains l) && i.milestone == msFilter

/-- The issue record assembled by `repo.create_issue(...)` when no
duplicate is found: open, carrying the derived labels, the resolved
milestone association, a body only when the description is truthy, and
a fresh number. -/
def mkNewIssue (repo : RepoState) (t : TaskSpec) (mobj : Option Milestone) : Issue :=
  { number := repo.next_issue_number
    title := t.title.getD ""
    state := "open"
    labels := labels_to_add t
    milestone := mobj.map Milestone.id
    body := if truthy t.description then some (t.description.getD "") else none
    url := repo.full_name ++ "/issues/" ++ toString repo.next_issue_number }

/-- Model of `create_github_issue(repo, issue_data, milestone_obj)`:
skips on a falsy title; otherwise searches the open issues filtered by
the derived labels and the milestone association for an exact title
match and skips when found; otherwise creates the issue and returns it
with the updated repository. -/
def create_github_issue (repo : RepoState) (t : TaskSpec)
    (milestone_obj_for_issue : Option Milestone) : Option Issue × RepoState :=
  if !(truthy t.title) then (none, repo)
  else
    let lbls := labels_to_add t
    let msFilter := milestone_obj_for_issue.map Milestone.id
    let existing := repo.issues.filter (fun i => issue_matches_filter i lbls msFilter)
    if existing.any (fun i => i.title == t.title.getD "") then (none, repo)
    else
      (some (mkNewIssue repo t milestone_obj_for_issue),
        { repo with
            issues := repo.issues ++ [mkNewIssue repo t milestone_obj_for_issue]
            next_issue_number := repo.next_issue_number + 1 })

/-- Model of `add_issue_to_github_project(org_name, project_name,
issue_obj)`: lists the organization's boards, takes the first whose
owner login equals the organization and whose title equals the board
name, aborts the process (error exit 1) when none is found or the found
board has a falsy id or number, then runs `gh project item-add`, which
aborts on subprocess failure and otherwise records the issue URL as a
new board item. -/
def add_issue_to_github_project (w : World) (org_name project_name : String)
    (issue_url : String) : Except Nat World :=
  match w.projects.find? (fun p => p.owner_login == org_name && p.title == project_name) with
  | none => Except.error 1
  | some p =>
    if p.id == "" || p.number == 0 then Except.error 1
    else if w.item_add_ok then
      Except.ok { w with board_items := w.board_items ++ [issue_url] }
    else Except.error 1

/-- The per-run lookup table `created_milestone_objects`:
milestone name to (repository key to milestone). -/
abbrev MsDict := List (String × List (String × Milestone))

/-- The inner loop of step 4 of `main`: for each declared target
repository of one milestone spec, reconcile the milestone and record the
handle under `created_milestone_objects[m_name][repo_key]`; unknown
repository keys are skipped. -/
def process_milestone_repos (m : MilestoneSpec) (name : String) :
    MsDict → World → List String → MsDict × World
  | d, w, [] => (d, w)
  | d, w, repo_key :: rest =>
    match REPO_MAP repo_key with
    | none => process_milestone_repos m name d w rest
    | some rk =>
      let res := get_or_create_milestone (w.getRepo rk) m
      let w' := w.setRepo rk res.2
      match res.1 with
      | some ms =>
        let inner := (alistGet name d).getD []
        process_milestone_repos m name (alistSet name (alistSet repo_key ms inner) d) w' rest
      | none => process_milestone_repos m name d w' rest

/-- One iteration of the milestone loop of `main`: a falsy name is
skipped; otherwise the lookup-table entry for the name is reset to an
empty mapping and the spec is reconciled against every declared target
repository. -/
def process_milestone (w : World) (d : MsDict) (m : MilestoneSpec) : MsDict × World :=
  if !(truthy m.name) then (d, w)
  else
    process_milestone_repos m (m.name.getD "")
      (alistSet (m.name.getD "") [] d) w m.target_repositories

/-- The milestone phase of `main` starting from a given lookup table. -/
def process_milestones_from (d : MsDict) (w : World) :
    List MilestoneSpec → MsDict × World
  | [] => (d, w)
  | m :: rest =>
    let res := process_milestone w d m
    process_milestones_from res.1 res.2 rest

/-- The milestone phase of `main` (the lookup table starts empty). -/
def process_milestones (w : World) (ms : List MilestoneSpec) : MsDict × World :=
  process_milestones_from [] w ms

/-- Milestone resolution for a task in step 5 of `main`:
`created_milestone_objects[task_milestone_name].get(task_repo_key)` when
the name is truthy and present in the lookup table, `none` otherwise. -/
def resolve_milestone (d : MsDict) (task_milestone_name repo_key : String) :
    Option Milestone :=
  if task_milestone_name ≠ "" then
    match alistGet task_milestone_name d with
    | some inner => alistGet repo_key inner
    | none => none
  else none

/-- One iteration of the task loop of `main`: a task with falsy title or
target repository is skipped, as is an unknown repository key; otherwise
the milestone handle is resolved from the lookup table, the issue is
reconciled, and only an actually created issue is attached to the
project board (which may abort the process). -/
def process_task (orgName projName : String) (d : MsDict) (w : World) (t : TaskSpec) :
    Except Nat World :=
  if !(truthy t.title) || !(truthy t.target_repository) then Except.ok w
  else
    match REPO_MAP (t.target_repository.getD "") with
    | none => Except.ok w
    | some rk =>
      let mobj := resolve_milestone d (t.milestone_name.getD "") (t.target_repository.getD "")
      let res := create_github_issue (w.getRepo rk) t mobj
      let w' := w.setRepo rk res.2
      match res.1 with
      | some issue => add_issue_to_github_project w' orgName projName issue.url
      | none => Except.ok w'

/-- The task phase of `main`: tasks are processed in plan order; a fatal
board-linking failure aborts the remaining tasks. -/
def process_tasks (orgName projName : String) (d : MsDict) (w : World) :
    List TaskSpec → Except Nat World
  | [] => Except.ok w
  | t :: rest =>
    match process_task orgName projName d w t with
    | Except.ok w' => process_tasks orgName projName d w' rest
    | Except.error c => Except.error c

/-- Steps 4 and 5 of `main`: reconcile all milestones of the plan, then
all tasks. -/
def run_plan (orgName projName : String) (p : Plan) (w : World) : Except Nat World :=
  let res := process_milestones w p.milestones
  process_tasks orgName projName res.1 res.2 p.tasks

/-- A JSON value, for the generative-model response. -/
inductive Json where
  | null : Json
  | bool : Bool → Json
  | num : Int → Json
  | str : String → Json
  | arr : List Json → Json
  | obj : List (String × Json) → Json

/-- Dictionary lookup on a JSON object (`json.loads` keeps the last
binding of a duplicated key, so the scan runs right to left); `none` on
a missing key or a non-object, where Python raises. -/
def jsonGet (j : Json) (k : String) : Option Json :=
  match j with
  | Json.obj fields => (fields.reverse.find? (fun p => p.1 == k)).map (fun p => p.2)
  | _ => none

/-- List indexing on a JSON array; `none` where Python raises. -/
def jsonIndex (j : Json) (n : Nat) : Option Json :=
  match j with
  | Json.arr xs => xs.get? n
  | _ => none

/-- The underlying string of a JSON string value. -/
def jsonStr : Json → Option String
  | Json.str s => some s
  | _ => none

/-- The transport-level outcome of the Gemini HTTP request:
the response status code and the body parsed by `response.json()`
(`none` when that parse raises). A missing response altogether models
`requests.exceptions.RequestException` during the post. -/
structure HttpResponse where
  status : Nat
  body_json : Option Json

/-- The navigation
`result['candidates'][0]['content']['parts'][0]['text']` through the
Gemini response envelope; `none` wherever Python would raise a
`KeyError`, `IndexError` or `TypeError` (all of which exit the
process). -/
def gemini_extract_text (result : Json) : Option String :=
  ((((((jsonGet result "candidates").bind (fun c => jsonIndex c 0)).bind
      (fun c0 => jsonGet c0 "content")).bind
      (fun ct => jsonGet ct "parts")).bind
      (fun ps => jsonIndex ps 0)).bind
      (fun p0 => jsonGet p0 "text")).bind jsonStr

/-- Model of `call_gemini_api(prompt_text)`: aborts (error exit 1) on a
transport error, on a 4xx or 5xx status raised by `raise_for_status`, on
an unparseable response body, on a malformed response envelope, or when
the generated text is not parseable JSON (`json_loads` models the
`json.loads` library call); otherwise returns the parsed plan JSON. -/
def call_gemini_api (json_loads : String → Option Json) (resp : Option HttpResponse) :
    Except Nat Json :=
  match resp with
  | none => Except.error 1
  | some r =>
    if 400 ≤ r.status ∧ r.status < 600 then Except.error 1
    else
      match r.body_json with
      | none => Except.error 1
      | some result =>
        match gemini_extract_text result with
        | none => Except.error 1
        | some s =>
          match json_loads s with
          | none => Except.error 1
          | some j => Except.ok j

/-- String field access `m_data.get(k)` on a JSON object entry of the
plan (a non-string value is treated as absent). -/
def jfield (j : Json) (k : String) : Option String :=
  (jsonGet j k).bind jsonStr

/-- Decoding of one milestone entry of the plan JSON into the fields the
milestone loop reads. -/
def milestoneSpec_of_json (j : Json) : MilestoneSpec :=
  { name := jfield j "name"
    description := jfield j "description"
    due_on := jfield j "due_on"
    target_repositories :=
      match jsonGet j "target_repositories" with
      | some (Json.arr xs) => xs.filterMap jsonStr
      | _ => [] }

/-- Decoding of one task entry of the plan JSON into the fields the task
loop reads. -/
def taskSpec_of_json (j : Json) : TaskSpec :=
  { title := jfield j "title"
    description := jfield j "description"
    assignee_candidate := jfield j "assignee_candidate"
    priority := jfield j "priority"
    task_granularity := jfield j "task_granularity"
    status := jfield j "status"
    target_repository := jfield j "target_repository"
    milestone_name := jfield j "milestone_name" }

/-- The plan built in `main` from the LLM output:
`llm_output.get('milestones', [])` and `llm_output.get('tasks', [])`,
each defaulting to the empty list when the key is absent. -/
def plan_of_json (j : Json) : Plan :=
  { milestones :=
      match jsonGet j "milestones" with
      | some (Json.arr xs) => xs.map milestoneSpec_of_json
      | _ => []
    tasks :=
      match jsonGet j "tasks" with
      | some (Json.arr xs) => xs.map taskSpec_of_json
      | _ => [] }

/-- The pipeline of `main` from the Gemini call onward: a failed plan
extraction aborts the run, otherwise the extracted plan is reconciled
against the backend. -/
def run_main (orgName projName : String) (json_loads : String → Option Json)
    (resp : Option HttpResponse) (w : World) : Except Nat World :=
  match call_gemini_api json_loads resp with
  | Except.error c => Except.error c
  | Except.ok j => run_plan orgName projName (plan_of_json j) w

/-! Auxiliary relations used to reason about how a run grows the
backend, plus concrete sample inputs used by witnesses and
counterexamples. -/

/-- One list extends another by appending a suffix. -/
def listExt {α : Type} (l l' : List α) : Prop := ∃ s, l' = l ++ s

/-- Every repository's milestone listing of the second world extends the
first world's. -/
def msLe (w w' : World) : Prop :=
  ∀ rk, listExt ((w.getRepo rk).milestones) ((w'.getRepo rk).milestones)

/-- Every repository's issue listing of the second world extends the
first world's. -/
def issLe (w w' : World) : Prop :=
  ∀ rk, listExt ((w.getRepo rk).issues) ((w'.getRepo rk).issues)

/-- How the milestone phase grows a world: milestones are only
appended and issues are untouched. -/
def msPhase (w w' : World) : Prop :=
  ∀ rk, listExt ((w.getRepo rk).milestones) ((w'.getRepo rk).milestones) ∧
    ((w'.getRepo rk).issues = (w.getRepo rk).issues)

/-- How the task phase grows a world: issues are only appended and
milestones are untouched. -/
def taskPhase (w w' : World) : Prop :=
  ∀ rk, listExt ((w.getRepo rk).issues) ((w'.getRepo rk).issues) ∧
    ((w'.getRepo rk).milestones = (w.getRepo rk).milestones)

/-- An empty frontend repository. -/
def feRepo0 : RepoState :=
  { full_name := "org/fe", milestones := [], issues := [],
    next_milestone_id := 1, next_issue_number := 1 }

/-- An empty backend repository. -/
def beRepo0 : RepoState :=
  { full_name := "org/be", milestones := [], issues := [],
    next_milestone_id := 1, next_issue_number := 1 }

/-- A backend world with empty repositories and one well-formed project
board owned by the organization. -/
def world0 : World :=
  { frontend := feRepo0
    backend := beRepo0
    projects := [{ owner_login := "org", title := "Board", id := "P1", number := 7 }]
    board_items := []
    item_add_ok := true }

/-- A pre-existing open issue carrying one label beyond the derived
set of `supersetTask`. -/
def supersetIssue : Issue :=
  { number := 9, title := "T1", state := "open",
    labels := ["priority:high", "extra"],
    milestone := none, body := none, url := "org/be/issues/9" }

/-- A backend repository holding only `supersetIssue`. -/
def supersetRepo : RepoState :=
  { full_name := "org/be", milestones := [], issues := [supersetIssue],
    next_milestone_id := 1, next_issue_number := 10 }

/-- A task spec whose derived label set is exactly the priority label. -/
def supersetTask : TaskSpec :=
  { title := some "T1", description := none, assignee_candidate := none,
    priority := some "high", task_granularity := none, status := none,
    target_repository := some "backend", milestone_name := none }

/-- A task spec carrying a status but no granularity, no priority and no
assignee candidate. -/
def statusOnlyTask : TaskSpec :=
  { title := some "T", description := none, assignee_candidate := none,
    priority := none, task_granularity := none, status := some "Todo",
    target_repository := some "backend", milestone_name := none }

/-- A milestone spec targeting the backend repository. -/
def msSpecM1 : MilestoneSpec :=
  { name := some "M1", description := some "goal", due_on := some "2025-06-22",
    target_repositories := ["backend"] }

/-- A milestone spec with the same name targeting the frontend. -/
def msSpecM1fe : MilestoneSpec :=
  { name := some "M1", description := none, due_on := none,
    target_repositories := ["frontend"] }

/-- A task spec linked to milestone M1 in the backend. -/
def taskT1 : TaskSpec :=
  { title := some "T1", description := some "do it",
    assignee_candidate := some "backend", priority := some "high",
    task_granularity := none, status := some "Todo",
    target_repository := some "backend", milestone_name := some "M1" }

/-- A plain task spec: backend, no labels, no milestone. -/
def tPlain : TaskSpec :=
  { title := some "T1", description := none, assignee_candidate := none,
    priority := none, task_granularity := none, status := none,
    target_repository := some "backend", milestone_name := none }

/-- A task spec naming an unknown target repository. -/
def tDocs : TaskSpec :=
  { title := some "T9", description := none, assignee_candidate := none,
    priority := none, task_granularity := none, status := none,
    target_repository := some "docs", milestone_name := none }

/-- A task spec naming a milestone absent from the plan. -/
def tM2 : TaskSpec :=
  { title := some "T2", description := none, assignee_candidate := none,
    priority := none, task_granularity := none, status := none,
    target_repository := some "backend", milestone_name := some "M2" }

/-- A one-milestone, one-task plan. -/
def planW : Plan := { milestones := [msSpecM1], tasks := [taskT1] }

/-- The backend produced by running `planW` once against `world0`: one
milestone M1, one issue T1 linked to it, one board item. -/
def world1 : World :=
  { frontend := feRepo0
    backend :=
      { full_name := "org/be"
        milestones := [{ id := 1, title := "M1", description := "goal",
                         due_on := some (2025, 6, 22), state := "open" }]
        issues := [{ number := 1, title := "T1", state := "open",
                     labels := ["backend", "priority:high"], milestone := some 1,
                     body := some "do it", url := "org/be/issues/1" }]
        next_milestone_id := 2
        next_issue_number := 2 }
    projects := [{ owner_login := "org", title := "Board", id := "P1", number := 7 }]
    board_items := ["org/be/issues/1"]
    item_add_ok := true }

/-- A plain open backend issue titled T1, without labels or
milestone. -/
def dupIssue : Issue :=
  { number := 3, title := "T1", state := "open", labels := [],
    milestone := none, body := none, url := "org/be/issues/3" }

/-- A world holding a plain open backend issue titled T1. -/
def dupWorld : World :=
  { world0 with
      backend := { beRepo0 with issues := [dupIssue], next_issue_number := 4 } }

/-- A world whose project listing has no board matching the
configuration. -/
def worldNoBoard : World := { world0 with projects := [] }

/-- A world whose gh item-add subprocess fails. -/
def worldAttachFail : World := { world0 with item_add_ok := false }

/-- A json.loads model that parses every generated text to an empty
JSON object. -/
def loadsEmpty : String → Option Json := fun _ => some (Json.obj [])

/-- A well-formed Gemini response envelope around one generated text. -/
def envC5 : Json :=
  Json.obj [("candidates", Json.arr [Json.obj [("content",
    Json.obj [("parts", Json.arr [Json.obj [("text", Json.str "x")]])])]])]

/-! Helper lemmas. -/

theorem truthy_iff (o : Option String) : truthy o = true ↔ ∃ s, o = some s ∧ s ≠ "" := by
  cases o <;> simp [truthy]

theorem getRepo_setRepo_same (w : World) (rk : RepoKey) (r : RepoState) :
    (w.setRepo rk r).getRepo rk = r := by
  cases rk <;> rfl

theorem getRepo_setRepo (w : World) (rk rk' : RepoKey) (r : RepoState) :
    (w.setRepo rk r).getRepo rk' = if rk = rk' then r else w.getRepo rk' := by
  cases rk <;> cases rk' <;> simp [World.setRepo, World.getRepo]

theorem setRepo_getRepo (w : World) (rk : RepoKey) :
    w.setRepo rk (w.getRepo rk) = w := by
  cases rk <;> rfl

theorem listExt_refl {α : Type} (l : List α) : listExt l l := ⟨[], by simp⟩

theorem listExt_trans {α : Type} {a b c : List α} (h1 : listExt a b) (h2 : listExt b c) :
    listExt a c := by
  obtain ⟨s, rfl⟩ := h1
  obtain ⟨u, rfl⟩ := h2
  exact ⟨s ++ u, by simp⟩

theorem listExt_append {α : Type} (l s : List α) : listExt l (l ++ s) := ⟨s, rfl⟩

theorem mem_of_listExt {α : Type} {l l' : List α} (h : listExt l l') {x : α} (hx : x ∈ l) :
    x ∈ l' := by
  obtain ⟨s, rfl⟩ := h
  exact List.mem_append_left s hx

theorem find?_of_listExt {α : Type} {p : α → Bool} {l l' : List α} (h : listExt l l')
    {x : α} (hf : l.find? p = some x) : l'.find? p = some x := by
  obtain ⟨s, rfl⟩ := h
  rw [List.find?_append, hf]
  rfl

theorem find?_none_append_cons {α : Type} {p : α → Bool} {l : List α}
    (h : l.find? p = none) {x : α} (hx : p x = true) (s : List α) :
    (l ++ x :: s).find? p = some x := by
  rw [List.find?_append, h, List.find?_cons_of_pos _ hx]
  rfl

theorem alistGet_alistSet {α : Type} (k k' : String) (v : α) (d : List (String × α)) :
    alistGet k (alistSet k' v d) = if k' = k then some v else alistGet k d := by
  induction d with
  | nil => by_cases h : k' = k <;> simp [alistGet, alistSet, h]
  | cons p rest ih =>
    by_cases h1 : p.1 = k'
    · by_cases h2 : k' = k <;> simp [alistGet, alistSet, h1, h2]
    · by_cases h2 : p.1 = k
      · have h3 : ¬ k' = k := fun hc => h1 (h2.trans hc.symm)
        simp [alistGet, alistSet, h1, h2, h3, Ne.symm h3]
      · simp [alistGet, alistSet, h1, h2, ih]

/-- Characterization of the duplicate check of `create_github_issue`:
with a truthy title, the creation is skipped exactly when some existing
issue is open, carries every derived label, has the same milestone
association, and matches the title exactly. -/
theorem cgi_skip_iff (repo : RepoState) (t : TaskSpec) (mobj : Option Milestone)
    (h : truthy t.title = true) :
    (create_github_issue repo t mobj).1 = none ↔
      ∃ i ∈ repo.issues, i.state = "open" ∧
        (∀ l ∈ labels_to_add t, l ∈ i.labels) ∧
        i.milestone = mobj.map Milestone.id ∧ i.title = t.title.getD "" := by
  unfold create_github_issue
  rw [h]
  simp only [Bool.not_true, Bool.false_eq_true, if_false]
  by_cases hex : (repo.issues.filter fun i =>
      issue_matches_filter i (labels_to_add t) (mobj.map Milestone.id)).any
      (fun i => i.title == t.title.getD "") = true
  · rw [if_pos hex]
    simp only [true_iff]
    simp only [List.any_eq_true, List.mem_filter, issue_matches_filter,
      Bool.and_eq_true, beq_iff_eq, List.all_eq_true] at hex
    obtain ⟨i, ⟨hi, ⟨hopen, hlab⟩, hms⟩, hti⟩ := hex
    refine ⟨i, hi, hopen, ?_, hms, hti⟩
    intro l hl
    have := hlab l hl
    simpa [List.elem_iff] using this
  · rw [if_neg hex]
    simp only [reduceCtorEq, false_iff, not_exists]
    intro i hcon
    apply hex
    simp only [List.any_eq_true, List.mem_filter, issue_matches_filter,
      Bool.and_eq_true, beq_iff_eq, List.all_eq_true]
    obtain ⟨hi, hopen, hlab, hms, hti⟩ := hcon
    refine ⟨i, ⟨hi, ⟨hopen, ?_⟩, hms⟩, hti⟩
    intro l hl
    simpa [List.elem_iff] using hlab l hl

/-- Bridge between the boolean duplicate search of the code and its
propositional reading. -/
theorem dup_any_iff (repo : RepoState) (t : TaskSpec) (mobj : Option Milestone) :
    ((repo.issues.filter fun i =>
        issue_matches_filter i (labels_to_add t) (mobj.map Milestone.id)).any
        (fun i => i.title == t.title.getD "") = true) ↔
      ∃ i ∈ repo.issues, i.state = "open" ∧
        (∀ l ∈ labels_to_add t, l ∈ i.labels) ∧
        i.milestone = mobj.map Milestone.id ∧ i.title = t.title.getD "" := by
  simp only [List.any_eq_true, List.mem_filter, issue_matches_filter,
    Bool.and_eq_true, beq_iff_eq, List.all_eq_true]
  constructor
  · rintro ⟨i, ⟨hi, ⟨ho, hl⟩, hm⟩, hti⟩
    exact ⟨i, hi, ho, fun l hl2 => by simpa [List.elem_iff] using hl l hl2, hm, hti⟩
  · rintro ⟨i, hi, ho, hl, hm, hti⟩
    exact ⟨i, ⟨hi, ⟨ho, fun l hl2 => by simpa [List.elem_iff] using hl l hl2⟩, hm⟩, hti⟩

/-- When a duplicate exists, issue reconciliation is a no-op returning
absent. -/
theorem cgi_skip_eq (repo : RepoState) (t : TaskSpec) (mobj : Option Milestone)
    (h : truthy t.title = true)
    (hdup : ∃ i ∈ repo.issues, i.state = "open" ∧
        (∀ l ∈ labels_to_add t, l ∈ i.labels) ∧
        i.milestone = mobj.map Milestone.id ∧ i.title = t.title.getD "") :
    create_github_issue repo t mobj = (none, repo) := by
  unfold create_github_issue
  rw [h]
  simp only [Bool.not_true, Bool.false_eq_true, if_false]
  rw [if_pos ((dup_any_iff repo t mobj).mpr hdup)]

/-- When no duplicate exists, issue reconciliation appends exactly the
new issue record. -/
theorem cgi_create_eq (repo : RepoState) (t : TaskSpec) (mobj : Option Milestone)
    (h : truthy t.title = true)
    (hnodup : ¬ ∃ i ∈ repo.issues, i.state = "open" ∧
        (∀ l ∈ labels_to_add t, l ∈ i.labels) ∧
        i.milestone = mobj.map Milestone.id ∧ i.title = t.title.getD "") :
    create_github_issue repo t mobj =
      (some (mkNewIssue repo t mobj),
        { repo with
            issues := repo.issues ++ [mkNewIssue repo t mobj]
            next_issue_number := repo.next_issue_number + 1 }) := by
  unfold create_github_issue
  rw [h]
  simp only [Bool.not_true, Bool.false_eq_true, if_false]
  rw [if_neg (fun hx => hnodup ((dup_any_iff repo t mobj).mp hx))]

theorem mem_assignee_chunk (t : TaskSpec) (l : String) :
    (l ∈ if t.assignee_candidate.getD "unassigned" ≠ "unassigned"
      then [t.assignee_candidate.getD "unassigned"] else []) ↔
    (t.assignee_candidate.getD "unassigned" ≠ "unassigned" ∧
      l = t.assignee_candidate.getD "unassigned") := by
  split <;> simp_all

theorem mem_priority_chunk (t : TaskSpec) (l : String) :
    (l ∈ if truthy t.priority then ["priority:" ++ t.priority.getD ""] else []) ↔
    ∃ p, t.priority = some p ∧ p ≠ "" ∧ l = "priority:" ++ p := by
  rcases hp : t.priority with _ | p
  · simp [truthy]
  · by_cases hpe : p = "" <;> simp [truthy, hpe]

theorem mem_granularity_chunk (t : TaskSpec) (l : String) :
    (l ∈ if truthy t.task_granularity
      then ["granularity:" ++ t.task_granularity.getD ""] else []) ↔
    ∃ g, t.task_granularity = some g ∧ g ≠ "" ∧ l = "granularity:" ++ g := by
  rcases hg : t.task_granularity with _ | g
  · simp [truthy]
  · by_cases hge : g = "" <;> simp [truthy, hge]

/-- C4 counterexample: the claim states that a granularity/status label
is attached whenever the granularity or the status field is present.
`statusOnlyTask` carries the status Todo, yet the code derives an empty
label list: the status field is never consulted by
`create_github_issue`. -/
theorem C4_status_counterexample :
    statusOnlyTask.status = some "Todo" ∧
    statusOnlyTask.task_granularity = none ∧
    labels_to_add statusOnlyTask = [] := by
  refine ⟨rfl, rfl, by decide⟩

/-- C4 (amended): the derived label set used at creation time and for
the duplicate search consists exactly of the assignee candidate when it
differs from unassigned, the label priority:<value> when the priority
field is present and non-empty, and the label granularity:<value> when
the task_granularity field is present and non-empty — and nothing else;
the status field never contributes a label. -/
theorem C4_labels_exact (t : TaskSpec) :
    (∀ l, l ∈ labels_to_add t ↔
      (t.assignee_candidate.getD "unassigned" ≠ "unassigned" ∧
        l = t.assignee_candidate.getD "unassigned") ∨
      (∃ p, t.priority = some p ∧ p ≠ "" ∧ l = "priority:" ++ p) ∨
      (∃ g, t.task_granularity = some g ∧ g ≠ "" ∧ l = "granularity:" ++ g)) ∧
    (∀ s, labels_to_add { t with status := s } = labels_to_add t) := by
  constructor
  · intro l
    unfold labels_to_add
    simp only [List.mem_append]
    rw [mem_assignee_chunk, mem_priority_chunk, mem_granularity_chunk]
    exact or_assoc
  · intro s
    rfl

/-- C3: with a non-empty name, the milestone reconciler scans the whole
milestone listing (open and closed alike) and returns the first exact
title match without creating anything; only when no title matches does
it create a milestone carrying the spec's title, defaulted description
and due date, where an unparseable due-date string degrades to no due
date instead of failing. -/
theorem C3_milestone_reconcile (repo : RepoState) (m : MilestoneSpec)
    (h : truthy m.name = true) :
    (∀ ms, repo.milestones.find? (fun x => x.title == m.name.getD "") = some ms →
        get_or_create_milestone repo m = (some ms, repo)) ∧
    (repo.milestones.find? (fun x => x.title == m.name.getD "") = none →
        ∃ nm, get_or_create_milestone repo m =
            (some nm,
              { repo with
                  milestones := repo.milestones ++ [nm]
                  next_milestone_id := repo.next_milestone_id + 1 }) ∧
          nm.title = m.name.getD "" ∧
          nm.description = m.description.getD "" ∧
          nm.state = "open" ∧
          (∀ s, m.due_on = some s → parse_date s = none → nm.due_on = none) ∧
          (∀ s d, m.due_on = some s → parse_date s = some d → nm.due_on = some d)) := by
  constructor
  · intro ms hf
    unfold get_or_create_milestone
    rw [h]
    simp only [Bool.not_true, Bool.false_eq_true, if_false, hf]
  · intro hf
    refine ⟨{ id := repo.next_milestone_id
              title := m.name.getD ""
              description := m.description.getD ""
              due_on := if truthy m.due_on then parse_date (m.due_on.getD "") else none
              state := "open" }, ?_, rfl, rfl, rfl, ?_, ?_⟩
    · unfold get_or_create_milestone
      rw [h]
      simp only [Bool.not_true, Bool.false_eq_true, if_false, hf]
      rfl
    · intro s hs hp
      simp only [hs, Option.getD_some]
      split <;> simp [hp]
    · intro s d hs hp
      have hse : s ≠ "" := by
        rintro rfl
        rw [show parse_date "" = none from rfl] at hp
        exact Option.noConfusion hp
      simp only [hs, Option.getD_some]
      rw [if_pos (by simp [truthy, hse]), hp]

/-- C3 witness: on an empty repository the reconciler creates the
milestone of `msSpecM1`. -/
theorem C3_witness :
    truthy msSpecM1.name = true ∧
    (get_or_create_milestone beRepo0 msSpecM1).1.isSome = true := by
  refine ⟨by decide, ?_⟩
  obtain ⟨nm, heq, _⟩ := (C3_milestone_reconcile beRepo0 msSpecM1 (by decide)).2 rfl
  rw [heq]
  rfl

/-- C2 counterexample: the claim requires the duplicate's label set to
equal the derived label set, but the code's duplicate search is a
containment filter: `supersetIssue` carries the extra label beyond the
derived set of `supersetTask`, and creation is nevertheless
suppressed. -/
theorem C2_superset_counterexample :
    (create_github_issue supersetRepo supersetTask none).1 = none ∧
    supersetIssue ∈ supersetRepo.issues ∧
    supersetIssue.state = "open" ∧
    supersetIssue.title = "T1" ∧
    supersetTask.title = some "T1" ∧
    "extra" ∈ supersetIssue.labels ∧
    "extra" ∉ labels_to_add supersetTask := by
  decide

/-- C2 (amended): an existing issue is treated as a duplicate — it sits
in the duplicate-search result set and its exact title match triggers
the skip — iff it is open, its label set contains the derived label set
(the search's labels parameter is a containment filter, not a
same-set test), it has the same milestone association (explicit
no-milestone counting as a match class), and its title matches the task
title exactly; creation is skipped iff such an issue exists; and when
every issue with the task's title is closed, creation of a new open
issue proceeds — a closed issue with the same title never suppresses
it. -/
theorem C2_duplicate_rule (repo : RepoState) (t : TaskSpec) (mobj : Option Milestone)
    (h : truthy t.title = true) :
    (∀ i ∈ repo.issues,
      (issue_matches_filter i (labels_to_add t) (mobj.map Milestone.id) = true ∧
          i.title = t.title.getD "") ↔
        (i.state = "open" ∧ (∀ l ∈ labels_to_add t, l ∈ i.labels) ∧
          i.milestone = mobj.map Milestone.id ∧ i.title = t.title.getD "")) ∧
    ((create_github_issue repo t mobj).1 = none ↔
      ∃ i ∈ repo.issues, i.state = "open" ∧
        (∀ l ∈ labels_to_add t, l ∈ i.labels) ∧
        i.milestone = mobj.map Milestone.id ∧ i.title = t.title.getD "") ∧
    ((∀ i ∈ repo.issues, i.title = t.title.getD "" → i.state ≠ "open") →
      ∃ newI, (create_github_issue repo t mobj).1 = some newI) := by
  refine ⟨?_, cgi_skip_iff repo t mobj h, ?_⟩
  · intro i _
    unfold issue_matches_filter
    simp only [Bool.and_eq_true, beq_iff_eq, List.all_eq_true, List.elem_iff]
    tauto
  · intro h3
    have hnodup : ¬ ∃ i ∈ repo.issues, i.state = "open" ∧
        (∀ l ∈ labels_to_add t, l ∈ i.labels) ∧
        i.milestone = mobj.map Milestone.id ∧ i.title = t.title.getD "" := by
      rintro ⟨i, hi, hopen, -, -, hti⟩
      exact h3 i hi hti hopen
    exact ⟨mkNewIssue repo t mobj, by rw [cgi_create_eq repo t mobj h hnodup]⟩

/-- C2 witness: the duplicate rule applied to `supersetRepo`,
`supersetTask`: a matching open issue exists, so the skip branch is
taken. -/
theorem C2_witness :
    truthy supersetTask.title = true ∧
    (create_github_issue supersetRepo supersetTask none).1 = none := by
  refine ⟨by decide, ?_⟩
  exact (C2_duplicate_rule supersetRepo supersetTask none (by decide)).2.1.mpr
    ⟨supersetIssue, by decide, by decide, by decide, by decide, by decide⟩

theorem process_tasks_cons (orgName projName : String) (d : MsDict) (w : World)
    (t : TaskSpec) (rest : List TaskSpec) :
    process_tasks orgName projName d w (t :: rest) =
      match process_task orgName projName d w t with
      | Except.ok w' => process_tasks orgName projName d w' rest
      | Except.error c => Except.error c := rfl

/-- C9: a task whose non-empty target repository is not a configured
repository key is skipped: the world is left untouched (no tracker
calls) and processing continues with the remaining tasks. -/
theorem C9_unknown_repo_skipped (orgName projName : String) (d : MsDict) (w : World)
    (t : TaskSpec) (rest : List TaskSpec) (k : String)
    (hk : t.target_repository = some k) (hne : k ≠ "") (hmap : REPO_MAP k = none) :
    process_task orgName projName d w t = Except.ok w ∧
    process_tasks orgName projName d w (t :: rest) =
      process_tasks orgName projName d w rest := by
  have h1 : process_task orgName projName d w t = Except.ok w := by
    unfold process_task
    by_cases ht : truthy t.title = true
    · rw [if_neg, hk]
      · simp only [Option.getD_some, hmap]
      · simp only [ht, hk, Bool.not_true, Bool.false_or, Bool.not_eq_true]
        simp [truthy, hne]
    · rw [if_pos]
      simp [ht]
  refine ⟨h1, ?_⟩
  rw [process_tasks_cons, h1]

theorem setRepo_projects (w : World) (rk : RepoKey) (r : RepoState) :
    (w.setRepo rk r).projects = w.projects := by
  cases rk <;> rfl

theorem setRepo_item_add_ok (w : World) (rk : RepoKey) (r : RepoState) :
    (w.setRepo rk r).item_add_ok = w.item_add_ok := by
  cases rk <;> rfl

theorem setRepo_board_items (w : World) (rk : RepoKey) (r : RepoState) :
    (w.setRepo rk r).board_items = w.board_items := by
  cases rk <;> rfl

/-- A missing board or a failing item-add subprocess makes the board
linker abort. -/
theorem add_issue_error (w : World) (o pn u : String)
    (h : w.projects.find? (fun p => p.owner_login == o && p.title == pn) = none ∨
      w.item_add_ok = false) :
    add_issue_to_github_project w o pn u = Except.error 1 := by
  unfold add_issue_to_github_project
  rcases hf : w.projects.find? (fun p => p.owner_login == o && p.title == pn) with _ | p
  · rw [hf]
  · rw [hf]
    dsimp only
    rcases h with h | h
    · rw [h] at hf
      exact Option.noConfusion hf
    · by_cases hid : (p.id == "" || p.number == 0) = true
      · rw [if_pos hid]
      · rw [if_neg hid, if_neg (by simp [h])]

/-- C7: when the duplicate search finds an exact-title match among the
open issues filtered by the derived labels and the resolved milestone,
the issue reconciler returns absent, the orchestrator performs no
board-attach call for that task (the world, board items included, is
unchanged), and processing continues with the remaining tasks — a
pre-existing issue is never re-linked to the board. -/
theorem C7_skip_no_board_link (orgName projName : String) (d : MsDict) (w : World)
    (t : TaskSpec) (rest : List TaskSpec) (k : String) (rk : RepoKey) (i : Issue)
    (ht : truthy t.title = true)
    (hk : t.target_repository = some k) (hrk : REPO_MAP k = some rk)
    (hi : i ∈ (w.getRepo rk).issues) (hopen : i.state = "open")
    (hlab : ∀ l ∈ labels_to_add t, l ∈ i.labels)
    (hms : i.milestone =
      (resolve_milestone d (t.milestone_name.getD "") k).map Milestone.id)
    (hti : i.title = t.title.getD "") :
    process_task orgName projName d w t = Except.ok w ∧
    process_tasks orgName projName d w (t :: rest) =
      process_tasks orgName projName d w rest := by
  have hkne : k ≠ "" := by
    rintro rfl
    simp [REPO_MAP] at hrk
  have hcg := cgi_skip_eq (w.getRepo rk) t
    (resolve_milestone d (t.milestone_name.getD "") k) ht
    ⟨i, hi, hopen, hlab, hms, hti⟩
  have h1 : process_task orgName projName d w t = Except.ok w := by
    unfold process_task
    rw [if_neg, hk]
    · simp only [Option.getD_some, hrk, hcg, setRepo_getRepo]
    · simp only [ht, hk, Bool.not_true, Bool.false_or, Bool.not_eq_true]
      simp [truthy, hkne]
  exact ⟨h1, by rw [process_tasks_cons, h1]⟩

/-- C7 witness: `dupWorld` already holds the open issue T1, so the task
is skipped and the board is untouched. -/
theorem C7_witness :
    truthy tPlain.title = true ∧
    process_tasks "org" "Board" [] dupWorld [tPlain] =
      process_tasks "org" "Board" [] dupWorld [] := by
  refine ⟨by decide, ?_⟩
  exact (C7_skip_no_board_link "org" "Board" [] dupWorld tPlain [] "backend"
    RepoKey.backend dupIssue (by decide) rfl (by decide) (by decide) (by decide)
    (by decide) (by decide) (by decide)).2

/-- The inner milestone loop only writes the lookup-table entry of the
spec's own name. -/
theorem alistGet_process_milestone_repos (m : MilestoneSpec) (name : String)
    (L : List String) (d : MsDict) (w : World) (n : String) (hn : n ≠ name) :
    alistGet n (process_milestone_repos m name d w L).1 = alistGet n d := by
  induction L generalizing d w with
  | nil => rfl
  | cons rk rest ih =>
    unfold process_milestone_repos
    rcases hmap : REPO_MAP rk with _ | r
    · exact ih d w
    · dsimp only
      rcases hgc : get_or_create_milestone (w.getRepo r) m with ⟨mo, repo'⟩
      dsimp only
      cases mo with
      | none => exact ih d _
      | some ms =>
        rw [ih _ _, alistGet_alistSet, if_neg (Ne.symm hn)]

/-- One milestone-loop iteration leaves every other name's lookup-table
entry unchanged. -/
theorem alistGet_process_milestone (w : World) (d : MsDict) (m : MilestoneSpec)
    (n : String) (hn : m.name.getD "" ≠ n) :
    alistGet n (process_milestone w d m).1 = alistGet n d := by
  unfold process_milestone
  by_cases hname : truthy m.name = true
  · rw [hname]
    simp only [Bool.not_true, Bool.false_eq_true, if_false]
    rw [alistGet_process_milestone_repos _ _ _ _ _ _ (Ne.symm hn),
      alistGet_alistSet, if_neg hn]
  · rw [Bool.not_eq_true] at hname
    rw [hname]
    rfl

/-- The milestone phase never creates a lookup-table entry for a name
that no spec carries. -/
theorem alistGet_process_milestones_from (specs : List MilestoneSpec) (d : MsDict)
    (w : World) (n : String) (hn : ∀ m ∈ specs, m.name.getD "" ≠ n) :
    alistGet n (process_milestones_from d w specs).1 = alistGet n d := by
  induction specs generalizing d w with
  | nil => rfl
  | cons m rest ih =>
    unfold process_milestones_from
    rcases hpm : process_milestone w d m with ⟨d', w'⟩
    dsimp only
    rw [ih d' w' (fun x hx => hn x (List.mem_cons_of_mem m hx))]
    have h1 := alistGet_process_milestone w d m n (hn m (List.mem_cons_self m rest))
    rw [hpm] at h1
    exact h1

/-- C8: a task whose milestone name is empty or absent from every
milestone spec of the plan resolves to no milestone, and (when no
duplicate suppresses it) the issue is still created, linked to no
milestone, with no error raised. -/
theorem C8_unknown_milestone_still_created (p : Plan) (w0 : World) (t : TaskSpec)
    (n k : String) (repo : RepoState)
    (hmn : t.milestone_name = some n)
    (hnames : n = "" ∨ ∀ m ∈ p.milestones, m.name.getD "" ≠ n)
    (ht : truthy t.title = true)
    (hnodup : ¬ ∃ i ∈ repo.issues, i.state = "open" ∧
        (∀ l ∈ labels_to_add t, l ∈ i.labels) ∧
        i.milestone = none ∧ i.title = t.title.getD "") :
    resolve_milestone (process_milestones w0 p.milestones).1 n k = none ∧
    ∃ newI, (create_github_issue repo t
        (resolve_milestone (process_milestones w0 p.milestones).1 n k)).1 = some newI ∧
      newI.milestone = none := by
  have hres : resolve_milestone (process_milestones w0 p.milestones).1 n k = none := by
    by_cases hne : n = ""
    · subst hne
      simp [resolve_milestone]
    · rcases hnames with rfl | hnames
      · simp [resolve_milestone]
      · unfold resolve_milestone
        rw [if_pos hne]
        have h1 := alistGet_process_milestones_from p.milestones [] w0 n hnames
        unfold process_milestones
        rw [h1]
        rfl
  refine ⟨hres, ⟨mkNewIssue repo t none, ?_, ?_⟩⟩
  · rw [hres]
    have hnodup' : ¬ ∃ i ∈ repo.issues, i.state = "open" ∧
        (∀ l ∈ labels_to_add t, l ∈ i.labels) ∧
        i.milestone = (none : Option Milestone).map Milestone.id ∧
        i.title = t.title.getD "" := by
      simpa using hnodup
    rw [cgi_create_eq repo t none ht hnodup']
  · rfl

/-- C8 witness: the task `tM2` names the milestone M2 that `planW` does
not declare; it resolves to no milestone and is still created. -/
theorem C8_witness :
    tM2.milestone_name = some "M2" ∧
    resolve_milestone (process_milestones world0 planW.milestones).1 "M2" "backend" = none ∧
    ∃ newI, (create_github_issue beRepo0 tM2
        (resolve_milestone (process_milestones world0 planW.milestones).1 "M2" "backend")).1
        = some newI ∧ newI.milestone = none := by
  refine ⟨rfl, ?_⟩
  exact C8_unknown_milestone_still_created planW world0 tM2 "M2" "backend" beRepo0 rfl
    (Or.inr (by decide)) (by decide) (by decide)

/-- The inner milestone loop populates the entry of its own name only
with repository keys drawn from the processed list. -/
theorem inner_keys_process_milestone_repos (m : MilestoneSpec) (name : String)
    (L : List String) (d : MsDict) (w : World) (k : String) (hk : k ∉ L)
    (hbase : ∀ inner, alistGet name d = some inner → alistGet k inner = none) :
    ∀ inner, alistGet name (process_milestone_repos m name d w L).1 = some inner →
      alistGet k inner = none := by
  induction L generalizing d w with
  | nil => exact hbase
  | cons rk rest ih =>
    have hk1 : k ≠ rk := fun hc => hk (hc ▸ List.mem_cons_self rk rest)
    have hk2 : k ∉ rest := fun hc => hk (List.mem_cons_of_mem rk hc)
    unfold process_milestone_repos
    rcases hmap : REPO_MAP rk with _ | r
    · exact ih d w hk2 hbase
    · dsimp only
      rcases hgc : get_or_create_milestone (w.getRepo r) m with ⟨mo, repo'⟩
      dsimp only
      cases mo with
      | none => exact ih d _ hk2 hbase
      | some ms =>
        apply ih _ _ hk2
        intro inner hin
        rw [alistGet_alistSet, if_pos rfl] at hin
        cases hin
        rw [alistGet_alistSet, if_neg (Ne.symm hk1)]
        rcases hold : alistGet name d with _ | inner0
        · simp [hold, alistGet]
        · simpa [hold] using hbase inner0 hold

theorem process_milestones_from_cons (d : MsDict) (w : World) (m : MilestoneSpec)
    (rest : List MilestoneSpec) :
    process_milestones_from d w (m :: rest) =
      process_milestones_from (process_milestone w d m).1
        (process_milestone w d m).2 rest := rfl

/-- Splitting the milestone phase at an appended suffix. -/
theorem process_milestones_from_append (xs ys : List MilestoneSpec) (d : MsDict)
    (w : World) :
    process_milestones_from d w (xs ++ ys) =
      process_milestones_from (process_milestones_from d w xs).1
        (process_milestones_from d w xs).2 ys := by
  induction xs generalizing d w with
  | nil => rfl
  | cons m rest ih =>
    rw [List.cons_append, process_milestones_from_cons, ih,
      process_milestones_from_cons]

/-- C10: when a later milestone spec shares the name of an earlier one,
its processing resets the lookup-table entry for that name before
reconciling, so only the later spec's target repositories survive: a
task naming that milestone in any repository the later spec does not
list resolves to no milestone. -/
theorem C10_later_spec_resets (w : World) (pre : List MilestoneSpec)
    (m2 : MilestoneSpec) (n k : String)
    (hname : m2.name = some n) (hn : n ≠ "")
    (hk : k ∉ m2.target_repositories) :
    resolve_milestone (process_milestones w (pre ++ [m2])).1 n k = none := by
  unfold process_milestones
  rw [process_milestones_from_append]
  rcases hpre : process_milestones_from [] w pre with ⟨d1, w1⟩
  dsimp only
  rw [process_milestones_from_cons]
  rcases hpm : process_milestone w1 d1 m2 with ⟨d2, w2⟩
  dsimp only
  show resolve_milestone d2 n k = none
  have htr : truthy m2.name = true := by simp [hname, truthy, hn]
  unfold process_milestone at hpm
  rw [htr] at hpm
  simp only [Bool.not_true, Bool.false_eq_true, if_false] at hpm
  have hgd : m2.name.getD "" = n := by rw [hname]; rfl
  rw [hgd] at hpm
  have hkeys := inner_keys_process_milestone_repos m2 n m2.target_repositories
    (alistSet n [] d1) w1 k hk
    (fun inner hin => by
      rw [alistGet_alistSet, if_pos rfl] at hin
      cases hin
      rfl)
  rw [hpm] at hkeys
  unfold resolve_milestone
  rw [if_pos hn]
  rcases hd2 : alistGet n d2 with _ | inner
  · rfl
  · exact hkeys inner hd2

/-- C10 witness: the earlier spec declares M1 for the frontend, the
later spec only for the backend; afterwards M1 no longer resolves in
the frontend. -/
theorem C10_witness :
    msSpecM1.name = some "M1" ∧
    "frontend" ∉ msSpecM1.target_repositories ∧
    resolve_milestone (process_milestones world0 ([msSpecM1fe] ++ [msSpecM1])).1
      "M1" "frontend" = none := by
  refine ⟨rfl, by decide, ?_⟩
  exact C10_later_spec_resets world0 [msSpecM1fe] msSpecM1 "M1" "frontend" rfl
    (by decide) (by decide)

/-- C6: board linking failures are fatal for the whole run: when no
listed board has the configured owner and title, or when the item-add
subprocess fails, the board linker exits with a non-zero code; and a
task that actually creates an issue then propagates that abort through
the task loop, so the remaining tasks are never processed. -/
theorem C6_board_failures_fatal (w : World) (orgName projName : String) :
    (∀ url, w.projects.find?
        (fun p => p.owner_login == orgName && p.title == projName) = none →
      add_issue_to_github_project w orgName projName url = Except.error 1) ∧
    (∀ url, w.item_add_ok = false →
      add_issue_to_github_project w orgName projName url = Except.error 1) ∧
    (∀ d t rest k rk newI,
      truthy t.title = true → t.target_repository = some k → REPO_MAP k = some rk →
      (create_github_issue (w.getRepo rk) t
        (resolve_milestone d (t.milestone_name.getD "") k)).1 = some newI →
      (w.projects.find?
          (fun p => p.owner_login == orgName && p.title == projName) = none ∨
        w.item_add_ok = false) →
      process_tasks orgName projName d w (t :: rest) = Except.error 1) := by
  refine ⟨fun url h => add_issue_error w orgName projName url (Or.inl h),
    fun url h => add_issue_error w orgName projName url (Or.inr h), ?_⟩
  intro d t rest k rk newI ht hk hrk hcreate hfail
  have hkne : k ≠ "" := by
    rintro rfl
    simp [REPO_MAP] at hrk
  rw [process_tasks_cons]
  have hstep : process_task orgName projName d w t = Except.error 1 := by
    unfold process_task
    rw [if_neg, hk]
    · simp only [Option.getD_some, hrk]
      rw [hcreate]
      apply add_issue_error
      rcases hfail with h | h
      · exact Or.inl (by rwa [setRepo_projects])
      · exact Or.inr (by rwa [setRepo_item_add_ok])
    · simp only [ht, hk, Bool.not_true, Bool.false_or, Bool.not_eq_true]
      simp [truthy, hkne]
  rw [hstep]

/-- C6 witness: `worldNoBoard` has no matching board; the plain task
creates an issue and the run aborts before the remaining tasks. -/
theorem C6_witness :
    worldNoBoard.projects.find?
      (fun p => p.owner_login == "org" && p.title == "Board") = none ∧
    process_tasks "org" "Board" [] worldNoBoard [tPlain, tDocs] = Except.error 1 := by
  refine ⟨rfl, ?_⟩
  exact (C6_board_failures_fatal worldNoBoard "org" "Board").2.2 [] tPlain [tDocs]
    "backend" RepoKey.backend (mkNewIssue beRepo0 tPlain none) (by decide) rfl
    (by decide) (by decide) (Or.inl rfl)

/-- C5 counterexample: the claim says plan extraction aborts when a
required top-level key (milestones, tasks) is absent from the parsed
response; in the code both keys are read with a defaulting get, so a
response whose generated text parses to the empty JSON object — missing
both keys — completes the run successfully instead of aborting. -/
theorem C5_missing_keys_counterexample :
    jsonGet (Json.obj []) "milestones" = none ∧
    jsonGet (Json.obj []) "tasks" = none ∧
    run_main "org" "Board" loadsEmpty
      (some { status := 200, body_json := some envC5 }) world0 = Except.ok world0 := by
  exact ⟨rfl, rfl, rfl⟩

/-- C5 (amended): plan extraction fails fatally, with no retry, when
the transport call errors, when the backend returns a 4xx or 5xx
status, when the response body or envelope cannot be parsed as the
expected structure, or when the generated text is not parseable JSON;
but an absent milestones or tasks top-level key of the parsed response
is not fatal — both default to the empty list and the run proceeds. -/
theorem C5_fatal_conditions (json_loads : String → Option Json) (r : HttpResponse) :
    (call_gemini_api json_loads none = Except.error 1) ∧
    (400 ≤ r.status → r.status < 600 →
      call_gemini_api json_loads (some r) = Except.error 1) ∧
    (r.status < 400 → r.body_json = none →
      call_gemini_api json_loads (some r) = Except.error 1) ∧
    (∀ j, r.status < 400 → r.body_json = some j → gemini_extract_text j = none →
      call_gemini_api json_loads (some r) = Except.error 1) ∧
    (∀ j s, r.status < 400 → r.body_json = some j → gemini_extract_text j = some s →
      json_loads s = none → call_gemini_api json_loads (some r) = Except.error 1) ∧
    (∀ orgName projName (w : World) j s, r.status < 400 → r.body_json = some j →
      gemini_extract_text j = some s → json_loads s = some (Json.obj []) →
      run_main orgName projName json_loads (some r) w = Except.ok w) := by
  have hnot : r.status < 400 → ¬ (400 ≤ r.status ∧ r.status < 600) := by omega
  have hga : ∀ j s jj, r.status < 400 → r.body_json = some j →
      gemini_extract_text j = some s → json_loads s = some jj →
      call_gemini_api json_loads (some r) = Except.ok jj := by
    intro j s jj hst hb hx hl
    unfold call_gemini_api
    dsimp only
    rw [if_neg (hnot hst), hb]
    dsimp only
    rw [hx]
    dsimp only
    rw [hl]
  refine ⟨rfl, ?_, ?_, ?_, ?_, ?_⟩
  · intro h1 h2
    unfold call_gemini_api
    dsimp only
    rw [if_pos ⟨h1, h2⟩]
  · intro hst hb
    unfold call_gemini_api
    dsimp only
    rw [if_neg (hnot hst), hb]
  · intro j hst hb hx
    unfold call_gemini_api
    dsimp only
    rw [if_neg (hnot hst), hb]
    dsimp only
    rw [hx]
  · intro j s hst hb hx hl
    unfold call_gemini_api
    dsimp only
    rw [if_neg (hnot hst), hb]
    dsimp only
    rw [hx]
    dsimp only
    rw [hl]
  · intro orgName projName w j s hst hb hx hl
    unfold run_main
    rw [hga j s (Json.obj []) hst hb hx hl]
    rfl

/-- C5 witness: a 500 status aborts plan extraction. -/
theorem C5_witness :
    400 ≤ 500 ∧ (500 : Nat) < 600 ∧
    call_gemini_api loadsEmpty (some { status := 500, body_json := none })
      = Except.error 1 := by
  exact ⟨by omega, by omega,
    (C5_fatal_conditions loadsEmpty { status := 500, body_json := none }).2.1
      (by decide) (by decide)⟩

/-- C9 witness: the task `tDocs` names the unknown repository docs and
is skipped without touching the world. -/
theorem C9_witness :
    tDocs.target_repository = some "docs" ∧ ("docs" : String) ≠ "" ∧
    REPO_MAP "docs" = none ∧
    process_tasks "org" "Board" [] world0 [tDocs] =
      process_tasks "org" "Board" [] world0 [] := by
  refine ⟨rfl, by decide, by decide, ?_⟩
  exact (C9_unknown_repo_skipped "org" "Board" [] world0 tDocs [] "docs" rfl
    (by decide) (by decide)).2

/-- C4 witness: the characterization applied to `supersetTask` puts the
priority label in its derived set. -/
theorem C4_witness : "priority:high" ∈ labels_to_add supersetTask :=
  ((C4_labels_exact supersetTask).1 "priority:high").mpr
    (Or.inr (Or.inl ⟨"high", rfl, by decide, rfl⟩))

theorem goc_skip_eq (r : RepoState) (m : MilestoneSpec) (h : truthy m.name = false) :
    get_or_create_milestone r m = (none, r) := by
  unfold get_or_create_milestone
  rw [h]
  rfl

theorem goc_found_eq (r : RepoState) (m : MilestoneSpec) (x : Milestone)
    (h : truthy m.name = true)
    (hf : r.milestones.find? (fun ms => ms.title == m.name.getD "") = some x) :
    get_or_create_milestone r m = (some x, r) := by
  unfold get_or_create_milestone
  rw [h]
  simp only [Bool.not_true, Bool.false_eq_true, if_false, hf]

theorem goc_create_eq (r : RepoState) (m : MilestoneSpec)
    (h : truthy m.name = true)
    (hf : r.milestones.find? (fun ms => ms.title == m.name.getD "") = none) :
    get_or_create_milestone r m =
      (some (mkNewMilestone r m),
        { r with
            milestones := r.milestones ++ [mkNewMilestone r m]
            next_milestone_id := r.next_milestone_id + 1 }) := by
  unfold get_or_create_milestone
  rw [h]
  simp only [Bool.not_true, Bool.false_eq_true, if_false, hf]

/-- Milestone reconciliation only appends milestones and never touches
issues. -/
theorem goc_ext (r : RepoState) (m : MilestoneSpec) :
    listExt r.milestones (get_or_create_milestone r m).2.milestones ∧
    (get_or_create_milestone r m).2.issues = r.issues := by
  by_cases ht : truthy m.name = true
  · rcases hf : r.milestones.find? (fun ms => ms.title == m.name.getD "") with _ | x
    · rw [goc_create_eq r m ht hf]
      exact ⟨listExt_append _ _, rfl⟩
    · rw [goc_found_eq r m x ht hf]
      exact ⟨listExt_refl _, rfl⟩
  · rw [Bool.not_eq_true] at ht
    rw [goc_skip_eq r m ht]
    exact ⟨listExt_refl _, rfl⟩

/-- Replaying milestone reconciliation against a backend that extends
its own outcome finds a match and changes nothing. -/
theorem goc_replay (r r'' : RepoState) (m : MilestoneSpec)
    (hext : listExt (get_or_create_milestone r m).2.milestones r''.milestones) :
    get_or_create_milestone r'' m = ((get_or_create_milestone r m).1, r'') := by
  by_cases ht : truthy m.name = true
  · rcases hf : r.milestones.find? (fun ms => ms.title == m.name.getD "") with _ | x
    · rw [goc_create_eq r m ht hf] at hext ⊢
      obtain ⟨s, hs⟩ := hext
      have hfind : r''.milestones.find? (fun ms => ms.title == m.name.getD "") =
          some (mkNewMilestone r m) := by
        rw [hs, List.append_assoc, List.singleton_append]
        exact find?_none_append_cons hf (by simp [mkNewMilestone]) s
      rw [goc_found_eq r'' m _ ht hfind]
    · rw [goc_found_eq r m x ht hf] at hext ⊢
      obtain ⟨s, hs⟩ := hext
      have hfind : r''.milestones.find? (fun ms => ms.title == m.name.getD "") = some x := by
        rw [hs, List.find?_append, hf]
        rfl
      rw [goc_found_eq r'' m x ht hfind]
  · rw [Bool.not_eq_true] at ht
    rw [goc_skip_eq r'' m ht, goc_skip_eq r m ht]

theorem msPhase_refl (w : World) : msPhase w w :=
  fun _ => ⟨listExt_refl _, rfl⟩

theorem msPhase_trans {a b c : World} (h1 : msPhase a b) (h2 : msPhase b c) :
    msPhase a c := fun rk =>
  ⟨listExt_trans (h1 rk).1 (h2 rk).1, ((h2 rk).2).trans (h1 rk).2⟩

theorem taskPhase_refl (w : World) : taskPhase w w :=
  fun _ => ⟨listExt_refl _, rfl⟩

theorem taskPhase_trans {a b c : World} (h1 : taskPhase a b) (h2 : taskPhase b c) :
    taskPhase a c := fun rk =>
  ⟨listExt_trans (h1 rk).1 (h2 rk).1, ((h2 rk).2).trans (h1 rk).2⟩

/-- Writing back a milestone reconciliation outcome grows the world in
the milestone-phase sense. -/
theorem msPhase_set_goc (w : World) (rk : RepoKey) (m : MilestoneSpec) :
    msPhase w (w.setRepo rk (get_or_create_milestone (w.getRepo rk) m).2) := by
  intro rk'
  rw [getRepo_setRepo]
  by_cases h : rk = rk'
  · subst h
    rw [if_pos rfl]
    exact ⟨(goc_ext (w.getRepo rk) m).1, (goc_ext (w.getRepo rk) m).2⟩
  · rw [if_neg h]
    exact ⟨listExt_refl _, rfl⟩

/-- The inner milestone loop grows the world in the milestone-phase
sense. -/
theorem process_milestone_repos_msPhase (m : MilestoneSpec) (name : String)
    (L : List String) (d : MsDict) (w : World) :
    msPhase w (process_milestone_repos m name d w L).2 := by
  induction L generalizing d w with
  | nil => exact msPhase_refl w
  | cons rk rest ih =>
    unfold process_milestone_repos
    rcases hmap : REPO_MAP rk with _ | r
    · exact ih d w
    · dsimp only
      rcases hgc : get_or_create_milestone (w.getRepo r) m with ⟨mo, repo'⟩
      dsimp only
      have hstep : msPhase w (w.setRepo r repo') := by
        have := msPhase_set_goc w r m
        rwa [hgc] at this
      cases mo with
      | none => exact msPhase_trans hstep (ih _ _)
      | some ms => exact msPhase_trans hstep (ih _ _)

/-- One milestone-loop iteration grows the world in the milestone-phase
sense. -/
theorem process_milestone_msPhase (w : World) (d : MsDict) (m : MilestoneSpec) :
    msPhase w (process_milestone w d m).2 := by
  unfold process_milestone
  by_cases ht : truthy m.name = true
  · rw [ht]
    simp only [Bool.not_true, Bool.false_eq_true, if_false]
    exact process_milestone_repos_msPhase m _ _ _ w
  · rw [Bool.not_eq_true] at ht
    rw [ht]
    exact msPhase_refl w

/-- The milestone phase grows the world in the milestone-phase sense. -/
theorem process_milestones_from_msPhase (specs : List MilestoneSpec) (d : MsDict)
    (w : World) : msPhase w (process_milestones_from d w specs).2 := by
  induction specs generalizing d w with
  | nil => exact msPhase_refl w
  | cons m rest ih =>
    rw [process_milestones_from_cons]
    exact msPhase_trans (process_milestone_msPhase w d m) (ih _ _)

/-- Replaying the inner milestone loop against a world that extends its
own outcome changes nothing and rebuilds the same lookup-table entry. -/
theorem process_milestone_repos_replay (m : MilestoneSpec) (name : String)
    (L : List String) (d : MsDict) (w W : World)
    (hle : msLe (process_milestone_repos m name d w L).2 W) :
    process_milestone_repos m name d W L =
      ((process_milestone_repos m name d w L).1, W) := by
  induction L generalizing d w with
  | nil => rfl
  | cons rk rest ih =>
    unfold process_milestone_repos at hle ⊢
    rcases hmap : REPO_MAP rk with _ | r
    · rw [hmap] at hle
      exact ih d w hle
    · rw [hmap] at hle
      dsimp only at hle ⊢
      rcases hgc : get_or_create_milestone (w.getRepo r) m with ⟨mo, repo'⟩
      rw [hgc] at hle
      dsimp only at hle
      cases mo with
      | none =>
        dsimp only at hle
        have hextr : listExt (get_or_create_milestone (w.getRepo r) m).2.milestones
            ((W.getRepo r).milestones) := by
          rw [hgc]
          have h1 := (process_milestone_repos_msPhase m name rest d
            (w.setRepo r repo') r).1
          rw [getRepo_setRepo_same] at h1
          exact listExt_trans h1 (hle r)
        have hrep := goc_replay (w.getRepo r) (W.getRepo r) m hextr
        rw [hgc] at hrep
        dsimp only at hrep
        rw [hrep]
        dsimp only
        rw [setRepo_getRepo]
        exact ih d (w.setRepo r repo') hle
      | some ms =>
        dsimp only at hle
        have hextr : listExt (get_or_create_milestone (w.getRepo r) m).2.milestones
            ((W.getRepo r).milestones) := by
          rw [hgc]
          have h1 := (process_milestone_repos_msPhase m name rest
            (alistSet name (alistSet rk ms ((alistGet name d).getD [])) d)
            (w.setRepo r repo') r).1
          rw [getRepo_setRepo_same] at h1
          exact listExt_trans h1 (hle r)
        have hrep := goc_replay (w.getRepo r) (W.getRepo r) m hextr
        rw [hgc] at hrep
        dsimp only at hrep
        rw [hrep]
        dsimp only
        rw [setRepo_getRepo]
        exact ih _ (w.setRepo r repo') hle

/-- Replaying one milestone-loop iteration against a world that extends
its own outcome changes nothing and rebuilds the same lookup table. -/
theorem process_milestone_replay (w W : World) (d : MsDict) (m : MilestoneSpec)
    (hle : msLe (process_milestone w d m).2 W) :
    process_milestone W d m = ((process_milestone w d m).1, W) := by
  unfold process_milestone at hle ⊢
  by_cases ht : truthy m.name = true
  · rw [ht] at hle ⊢
    simp only [Bool.not_true, Bool.false_eq_true, if_false] at hle ⊢
    exact process_milestone_repos_replay m _ _ _ w W hle
  · rw [Bool.not_eq_true] at ht
    rw [ht] at hle ⊢
    rfl

/-- Replaying the whole milestone phase against a world that extends
its own outcome changes nothing and rebuilds the same lookup table. -/
theorem process_milestones_from_replay (specs : List MilestoneSpec) (d : MsDict)
    (w W : World) (hle : msLe (process_milestones_from d w specs).2 W) :
    process_milestones_from d W specs =
      ((process_milestones_from d w specs).1, W) := by
  induction specs generalizing d w with
  | nil => rfl
  | cons m rest ih =>
    rw [process_milestones_from_cons] at hle ⊢
    rw [process_milestones_from_cons]
    have hle1 : msLe (process_milestone w d m).2 W := by
      intro rk
      exact listExt_trans
        ((process_milestones_from_msPhase rest (process_milestone w d m).1
          (process_milestone w d m).2 rk).1)
        (hle rk)
    have hrep := process_milestone_replay w W d m hle1
    rw [hrep]
    dsimp only
    exact ih (process_milestone w d m).1 (process_milestone w d m).2 hle

theorem cgi_falsy_eq (r : RepoState) (t : TaskSpec) (mobj : Option Milestone)
    (h : truthy t.title = false) :
    create_github_issue r t mobj = (none, r) := by
  unfold create_github_issue
  rw [h]
  rfl

/-- Issue reconciliation only appends issues and never touches
milestones. -/
theorem cgi_ext (r : RepoState) (t : TaskSpec) (mobj : Option Milestone) :
    listExt r.issues (create_github_issue r t mobj).2.issues ∧
    (create_github_issue r t mobj).2.milestones = r.milestones := by
  by_cases ht : truthy t.title = true
  · by_cases hdup : ∃ i ∈ r.issues, i.state = "open" ∧
        (∀ l ∈ labels_to_add t, l ∈ i.labels) ∧
        i.milestone = mobj.map Milestone.id ∧ i.title = t.title.getD ""
    · rw [cgi_skip_eq r t mobj ht hdup]
      exact ⟨listExt_refl _, rfl⟩
    · rw [cgi_create_eq r t mobj ht hdup]
      exact ⟨listExt_append _ _, rfl⟩
  · rw [Bool.not_eq_true] at ht
    rw [cgi_falsy_eq r t mobj ht]
    exact ⟨listExt_refl _, rfl⟩

/-- Replaying issue reconciliation against a backend that extends its
own outcome always skips: either the duplicate that caused the original
skip is still listed, or the issue created by the original call is. -/
theorem cgi_replay (r r'' : RepoState) (t : TaskSpec) (mobj : Option Milestone)
    (hext : listExt (create_github_issue r t mobj).2.issues r''.issues) :
    create_github_issue r'' t mobj = (none, r'') := by
  by_cases ht : truthy t.title = true
  · by_cases hdup : ∃ i ∈ r.issues, i.state = "open" ∧
        (∀ l ∈ labels_to_add t, l ∈ i.labels) ∧
        i.milestone = mobj.map Milestone.id ∧ i.title = t.title.getD ""
    · rw [cgi_skip_eq r t mobj ht hdup] at hext
      obtain ⟨i, hi, hprops⟩ := hdup
      exact cgi_skip_eq r'' t mobj ht ⟨i, mem_of_listExt hext hi, hprops⟩
    · rw [cgi_create_eq r t mobj ht hdup] at hext
      have hni : mkNewIssue r t mobj ∈ r''.issues :=
        mem_of_listExt hext
          (List.mem_append_right _ (List.mem_singleton.mpr rfl))
      exact cgi_skip_eq r'' t mobj ht
        ⟨mkNewIssue r t mobj, hni, rfl, fun l hl => hl, rfl, rfl⟩
  · rw [Bool.not_eq_true] at ht
    exact cgi_falsy_eq r'' t mobj ht

/-- Successful board linking only appends one board item. -/
theorem add_issue_ok_inv (w : World) (o pn u : String) (w' : World)
    (h : add_issue_to_github_project w o pn u = Except.ok w') :
    w' = { w with board_items := w.board_items ++ [u] } := by
  unfold add_issue_to_github_project at h
  rcases hf : w.projects.find? (fun p => p.owner_login == o && p.title == pn) with _ | p
  · rw [hf] at h
    exact Except.noConfusion h
  · rw [hf] at h
    dsimp only at h
    by_cases hid : (p.id == "" || p.number == 0) = true
    · rw [if_pos hid] at h
      exact Except.noConfusion h
    · rw [if_neg hid] at h
      by_cases hok : w.item_add_ok = true
      · rw [if_pos hok] at h
        cases h
        rfl
      · rw [if_neg hok] at h
        exact Except.noConfusion h

theorem boardAppend_getRepo (w : World) (u : String) (rk : RepoKey) :
    ({ w with board_items := w.board_items ++ [u] } : World).getRepo rk =
      w.getRepo rk := by
  cases rk <;> rfl

/-- One task-loop iteration that succeeds grows the world in the
task-phase sense. -/
theorem process_task_taskPhase (orgName projName : String) (d : MsDict) (w w2 : World)
    (t : TaskSpec) (h : process_task orgName projName d w t = Except.ok w2) :
    taskPhase w w2 := by
  unfold process_task at h
  by_cases hcond : (!(truthy t.title) || !(truthy t.target_repository)) = true
  · rw [if_pos hcond] at h
    cases h
    exact taskPhase_refl w
  · rw [if_neg hcond] at h
    rcases hmap : REPO_MAP (t.target_repository.getD "") with _ | rk
    · rw [hmap] at h
      dsimp only at h
      cases h
      exact taskPhase_refl w
    · rw [hmap] at h
      dsimp only at h
      rcases hcg : create_github_issue (w.getRepo rk) t
          (resolve_milestone d (t.milestone_name.getD "")
            (t.target_repository.getD "")) with ⟨o, repo'⟩
      rw [hcg] at h
      dsimp only at h
      have hstep : taskPhase w (w.setRepo rk repo') := by
        intro rk'
        rw [getRepo_setRepo]
        by_cases hrk : rk = rk'
        · subst hrk
          rw [if_pos rfl]
          have := cgi_ext (w.getRepo rk) t
            (resolve_milestone d (t.milestone_name.getD "")
              (t.target_repository.getD ""))
          rw [hcg] at this
          exact this
        · rw [if_neg hrk]
          exact ⟨listExt_refl _, rfl⟩
      cases o with
      | none =>
        cases h
        exact hstep
      | some issue =>
        have hw2 := add_issue_ok_inv _ _ _ _ _ h
        subst hw2
        intro rk'
        rw [boardAppend_getRepo]
        exact hstep rk'

/-- A successful task phase grows the world in the task-phase sense. -/
theorem process_tasks_taskPhase (orgName projName : String) (d : MsDict)
    (tasks : List TaskSpec) (w W : World)
    (h : process_tasks orgName projName d w tasks = Except.ok W) :
    taskPhase w W := by
  induction tasks generalizing w with
  | nil =>
    cases h
    exact taskPhase_refl _
  | cons t rest ih =>
    rw [process_tasks_cons] at h
    rcases hstep : process_task orgName projName d w t with c | w2
    · rw [hstep] at h
      exact Except.noConfusion h
    · rw [hstep] at h
      dsimp only at h
      exact taskPhase_trans
        (process_task_taskPhase orgName projName d w w2 t hstep) (ih w2 h)

/-- Replaying one successful task-loop iteration against a world that
extends its own outcome takes the skip branch and changes nothing. -/
theorem process_task_replay (orgName projName : String) (d : MsDict) (w w2 W : World)
    (t : TaskSpec) (hstep : process_task orgName projName d w t = Except.ok w2)
    (hle : issLe w2 W) :
    process_task orgName projName d W t = Except.ok W := by
  unfold process_task at hstep ⊢
  by_cases hcond : (!(truthy t.title) || !(truthy t.target_repository)) = true
  · rw [if_pos hcond]
  · rw [if_neg hcond] at hstep ⊢
    rcases hmap : REPO_MAP (t.target_repository.getD "") with _ | rk
    · rw [hmap] at hstep
    · rw [hmap] at hstep
      dsimp only at hstep ⊢
      rcases hcg : create_github_issue (w.getRepo rk) t
          (resolve_milestone d (t.milestone_name.getD "")
            (t.target_repository.getD "")) with ⟨o, repo'⟩
      rw [hcg] at hstep
      dsimp only at hstep
      have hrepo2 : listExt repo'.issues ((W.getRepo rk).issues) := by
        cases o with
        | none =>
          cases hstep
          have h1 := hle rk
          rwa [getRepo_setRepo_same] at h1
        | some issue =>
          have hw2 := add_issue_ok_inv _ _ _ _ _ hstep
          subst hw2
          have h1 := hle rk
          rwa [boardAppend_getRepo, getRepo_setRepo_same] at h1
      have hrep := cgi_replay (w.getRepo rk) (W.getRepo rk) t
        (resolve_milestone d (t.milestone_name.getD "")
          (t.target_repository.getD ""))
        (by rw [hcg]; exact hrepo2)
      rw [hrep]
      dsimp only
      rw [setRepo_getRepo]

/-- Replaying a successful task phase against its own outcome skips
every task and changes nothing. -/
theorem process_tasks_replay (orgName projName : String) (d : MsDict)
    (tasks : List TaskSpec) (w W : World)
    (h : process_tasks orgName projName d w tasks = Except.ok W) :
    process_tasks orgName projName d W tasks = Except.ok W := by
  induction tasks generalizing w with
  | nil =>
    cases h
    rfl
  | cons t rest ih =>
    rw [process_tasks_cons] at h
    rcases hstep : process_task orgName projName d w t with c | w2
    · rw [hstep] at h
      exact Except.noConfusion h
    · rw [hstep] at h
      dsimp only at h
      have htp : taskPhase w2 W :=
        process_tasks_taskPhase orgName projName d rest w2 W h
      have hrep := process_task_replay orgName projName d w w2 W t hstep
        (fun rk => (htp rk).1)
      rw [process_tasks_cons, hrep]
      exact ih w2 h

/-- C1: a second run of the whole orchestration with an identical plan
against the backend produced by a completed first run creates nothing:
every milestone scan finds the milestone of the first run, every
duplicate search finds the issue of the first run, no board item is
added, and the world is returned unchanged. -/
theorem C1_idempotent (orgName projName : String) (p : Plan) (w0 w1 : World)
    (h : run_plan orgName projName p w0 = Except.ok w1) :
    run_plan orgName projName p w1 = Except.ok w1 := by
  unfold run_plan at h ⊢
  dsimp only at h ⊢
  have htp : taskPhase (process_milestones w0 p.milestones).2 w1 :=
    process_tasks_taskPhase orgName projName
      (process_milestones w0 p.milestones).1 p.tasks
      (process_milestones w0 p.milestones).2 w1 h
  have hmsle : msLe (process_milestones w0 p.milestones).2 w1 := by
    intro rk
    rw [(htp rk).2]
    exact listExt_refl _
  have hrep : process_milestones_from [] w1 p.milestones =
      ((process_milestones_from [] w0 p.milestones).1, w1) :=
    process_milestones_from_replay p.milestones [] w0 w1 hmsle
  unfold process_milestones at h ⊢
  rw [hrep]
  dsimp only
  exact process_tasks_replay orgName projName
    (process_milestones_from [] w0 p.milestones).1 p.tasks
    (process_milestones_from [] w0 p.milestones).2 w1 h

/-- C1 witness: running the one-milestone, one-task plan against the
empty backend yields `world1`; the second run returns it unchanged. -/
theorem C1_witness :
    run_plan "org" "Board" planW world0 = Except.ok world1 ∧
    run_plan "org" "Board" planW world1 = Except.ok world1 := by
  refine ⟨rfl, ?_⟩
  exact C1_idempotent "org" "Board" planW world0 world1 rfl
